import Mathlib

/-!
Verification of the natural-language specification of the govendor test
harness (internal/gt/vcs.go) against a shallow Lean embedding of that file.

The embedding models, from the source:

  * the import-redirect HTTP server (HttpHandler.ServeHTTP) and its routing
    table of registered VCS handles (HttpHandler.Setup / gitVcsHandle.remove);
  * harness construction (NewHttpHandler);
  * the asynchronous process supervisor (runner.runAsync): its readiness
    polling loop and the cleanup action it registers;
  * commit-output parsing (gitVcsHandle.Commit), including a model of the
    Go standard time library surface that Commit uses (time.Parse with
    layout "2006-01-02 15:04:05 -0700", Time.UTC, time.RFC3339 formatting).

Side-effecting Go calls that belong to external collaborators (the OS, the
net and os/exec packages, the GopathTest test context) are modelled by
explicit inputs: what the code reads from them becomes a function argument,
and what it does to them becomes part of an explicit result value.
-/

/-! ## Routing table and HTTP redirect server (vcs.go lines 21-70, 144-161) -/

/-- One registered VCS handle, as the routing table sees it.  The source
stores values of interface type VcsHandle keyed by their pkg() string;
the only parts of a handle the routing code consults are its import path
(vcsCommon.importPath, returned by pkg()) and its identity.  The hid field
stands for the identity of the underlying handle object so that distinct
handle objects with equal import paths can be told apart. -/
structure VcsHandleM where
  importPath : String
  hid : Nat
deriving DecidableEq

/-- The HttpHandler state from vcs.go lines 21-32, restricted to the fields
the claims are about.  The Go map handles is modelled as a list of entries;
Go map iteration order is unspecified, and the list order stands for the
(arbitrary) order a particular iteration happens to take. -/
structure HttpHandlerM where
  httpAddr : String
  vcsAddr : String
  vcsName : String
  handles : List VcsHandleM
deriving DecidableEq

/-- Go strings.HasPrefix(s, pre), modelled on the character lists of the
two strings. -/
def goHasPrefix (s pre : String) : Bool :=
  pre.data.isPrefixOf s.data

/-- Go strings.TrimPrefix(s, "/"): drop one leading "/" if present. -/
def trimLeadingSlash (s : String) : String :=
  match s.data with
  | '/' :: rest => String.mk rest
  | _ => s

/-- The 200 response body of ServeHTTP (vcs.go lines 37-38 and 52): the
templ constant instantiated with httpAddr+"/"+pkg, vcsName and
vcsAddr+pkg+"/.git", including the trailing newline of the raw literal. -/
def goImportBody (h : HttpHandlerM) (pkg : String) : String :=
  "<html><head><meta name=\"go-import\" content=\"" ++
    (h.httpAddr ++ "/" ++ pkg) ++ " " ++ h.vcsName ++ " " ++
    (h.vcsAddr ++ pkg ++ "/.git") ++ "\"></head></html>\n"

/-- The 404 body produced by http.Error(w, "repo not found", 404); the Go
standard library prints the message followed by a newline. -/
def repoNotFoundBody : String := "repo not found\n"

/-- HttpHandler.ServeHTTP (vcs.go lines 34-53) as a function from the
request path to the response status and body: trim one leading slash,
scan the handles for the first whose pkg() is a prefix of the trimmed
path, and answer 200 with the go-import document or 404. -/
def serveHTTP (h : HttpHandlerM) (urlPath : String) : Nat × String :=
  let p := trimLeadingSlash urlPath
  match h.handles.find? (fun t => goHasPrefix p t.importPath) with
  | some t => (200, goImportBody h t.importPath)
  | none => (404, repoNotFoundBody)

/-- Go map assignment h.handles[vcs.pkg()] = vcs (vcs.go line 68): any
entry stored under the same key is replaced by the new one. -/
def mapInsert (v : VcsHandleM) (hs : List VcsHandleM) : List VcsHandleM :=
  v :: hs.filter (fun u => u.importPath ≠ v.importPath)

/-- The routing-table effect of HttpHandler.Setup (vcs.go lines 63-70):
the freshly created handle is stored under its pkg() key.  The subprocess
side effects of vcs.create() belong to the external git binary. -/
def setupM (h : HttpHandlerM) (v : VcsHandleM) : HttpHandlerM :=
  { h with handles := mapInsert v h.handles }

/-- gitVcsHandle.remove (vcs.go lines 159-161): delete(vcs.h.handles,
vcs.pkg()) removes the entry stored under the handle's import path. -/
def removeM (h : HttpHandlerM) (pkg : String) : HttpHandlerM :=
  { h with handles := h.handles.filter (fun u => u.importPath ≠ pkg) }

/-- The keys of the routing table are the import paths of its entries. -/
def routingKeys (h : HttpHandlerM) : List String :=
  h.handles.map (fun u => u.importPath)

/-! ## Harness construction (vcs.go lines 72-135) -/

/-- Outcome of NewHttpHandler, one constructor per exit path of the source:
returning nil (listener failure, line 77), g.Skip (missing executable,
line 103), t.Fatalf inside freePort (line 203), panic("unknown vcs type")
(line 108), or a ready handler. -/
inductive NewHandlerOutcome where
  | nilHandler
  | skipped
  | fatalPort
  | panicUnknownVcs
  | ready (h : HttpHandlerM)
deriving DecidableEq

/-- NewHttpHandler (vcs.go lines 72-135) over its environment: listenAddr
is the address of the TCP listener if net.Listen succeeded, execPath the
result of exec.LookPath (empty when the binary is absent), portResult the
free port if freePort succeeded.  The daemon start performed by runAsync is
modelled separately by runAsyncPoll. -/
def newHttpHandler (listenAddr : Option String) (execPath : String)
    (vcsName : String) (portResult : Option Nat) : NewHandlerOutcome :=
  match listenAddr with
  | none => .nilHandler
  | some addr =>
    if execPath.length = 0 then .skipped
    else if vcsName = "git" then
      match portResult with
      | none => .fatalPort
      | some port =>
        .ready { httpAddr := addr
                 vcsAddr := "git://localhost:" ++ toString port ++ "/"
                 vcsName := vcsName
                 handles := [] }
    else .panicUnknownVcs

/-- A concrete one-handle harness state used by witnesses. -/
def handlerA : HttpHandlerM :=
  ⟨"127.0.0.1:40000", "git://localhost:9418/", "git", [⟨"example.org/mod", 0⟩]⟩

/-- A concrete two-handle harness state used by witnesses. -/
def handlerB : HttpHandlerM :=
  ⟨"127.0.0.1:40000", "git://localhost:9418/", "git",
    [⟨"example.org/mod", 0⟩, ⟨"other.org/x", 1⟩]⟩

/-! ## Process supervisor: runner.runAsync (vcs.go lines 213-264) -/

/-- Go strings.Contains(s, substr) on character lists: some suffix of s
starts with sub. -/
def containsSub (s sub : List Char) : Bool :=
  match s with
  | [] => sub.isEmpty
  | c :: rest => sub.isPrefixOf (c :: rest) || containsSub rest sub

/-- Go strings.Contains over strings. -/
def strContains (s sub : String) : Bool :=
  containsSub s.data sub.data

/-- Go fmt %q of a string, for the argument strings at hand (no characters
needing escapes): the string wrapped in double quotes. -/
def goQuote (s : String) : String :=
  "\"" ++ s ++ "\""

/-- Go fmt %q of a []string: the quoted elements, space separated, in
square brackets. -/
def goQuoteArgs (args : List String) : String :=
  "[" ++ String.intercalate " " (args.map goQuote) ++ "]"

/-- The Fatalf text of vcs.go line 251: "unexpected stop %q %q\n%s\n%s\n"
applied to the executable path, the argument list, and the two captured
buffers (stdout then stderr). -/
def fatalStopMsg (execPath : String) (args : List String) (outBuf errBuf : String) : String :=
  "unexpected stop " ++ goQuote execPath ++ " " ++ goQuoteArgs args ++ "\n" ++
    outBuf ++ "\n" ++ errBuf ++ "\n"

/-- The Fatalf text of vcs.go line 261: "failed to read expected output
%q from %q %q\n%s\n" applied to the marker, the executable path, the
argument list, and only the captured stderr buffer. -/
def noMarkerMsg (checkFor execPath : String) (args : List String) (errBuf : String) : String :=
  "failed to read expected output " ++ goQuote checkFor ++ " from " ++
    goQuote execPath ++ " " ++ goQuoteArgs args ++ "\n" ++ errBuf ++ "\n"

/-- What one iteration of the polling loop observes about the supervised
process: whether cmd.ProcessState reports an exit, and the current contents
of the two captured buffers (they are appended to concurrently, so each
attempt may see different contents). -/
structure PollObs where
  exited : Bool
  outBuf : String
  errBuf : String
deriving DecidableEq

/-- Outcome of runAsync as test code observes it: return, or a fatal test
abort carrying the Fatalf message. -/
inductive RunResult where
  | success
  | fatal (msg : String)
deriving DecidableEq

/-- The marker was found in either captured buffer at attempt i (the loop
checks stdout first, then stderr; both give the same successful return). -/
def hitAt (checkFor : String) (obs : Nat → PollObs) (i : Nat) : Bool :=
  strContains (obs i).outBuf checkFor || strContains (obs i).errBuf checkFor

/-- The polling loop of vcs.go lines 249-261, at attempt i with rem
attempts left (the source runs 100 attempts, sleeping 10ms between them):
first the exit check, then the two buffer checks, else the next attempt;
once attempts are exhausted, the Fatalf of line 261 reads the stderr
buffer one last time. -/
def pollGo (checkFor execPath : String) (args : List String) (obs : Nat → PollObs) :
    Nat → Nat → RunResult
  | i, 0 => .fatal (noMarkerMsg checkFor execPath args (obs i).errBuf)
  | i, rem + 1 =>
    if (obs i).exited then .fatal (fatalStopMsg execPath args (obs i).outBuf (obs i).errBuf)
    else if strContains (obs i).outBuf checkFor then .success
    else if strContains (obs i).errBuf checkFor then .success
    else pollGo checkFor execPath args obs (i + 1) rem

/-- runner.runAsync after a successful start (vcs.go lines 248-263): with an
empty marker it returns immediately; otherwise it runs the polling loop for
100 attempts starting at attempt 0. -/
def runAsyncPoll (checkFor execPath : String) (args : List String)
    (obs : Nat → PollObs) : RunResult :=
  if checkFor = "" then .success else pollGo checkFor execPath args obs 0 100

/-- Events the cleanup action of vcs.go lines 229-247 performs on its
environment, in order. -/
inductive CleanupEvent where
  | signalInterrupt
  | kill
  | logStdout (s : String)
  | logStderr (s : String)
deriving DecidableEq

/-- Result of running the cleanup action: the performed events, or a crash
(Go nil-pointer panic) after the events performed so far. -/
inductive CleanupResult where
  | ok (events : List CleanupEvent)
  | nilBufferPanic (events : List CleanupEvent)
deriving DecidableEq

/-- The cleanup action registered by runAsync (vcs.go lines 229-247) over
its environment: processStarted models cmd.Process != nil, bufs the buf and
bufErr pointers (none when output capture was off), timedOut whether the
300ms timer won the race against Process.Wait (in which case Process.Kill
runs).  Signalling a process that already exited makes Process.Signal
return an error, which line 233 ignores, so that case is the timedOut=false
run.  When bufs is none, evaluating buf.Bytes() for the Logf call on line
245 dereferences a nil *bytes.Buffer and panics. -/
def cleanupAction (processStarted : Bool) (bufs : Option (String × String))
    (timedOut : Bool) : CleanupResult :=
  if processStarted = false then .ok []
  else
    let evs := CleanupEvent.signalInterrupt :: (if timedOut then [CleanupEvent.kill] else [])
    match bufs with
    | none => .nilBufferPanic evs
    | some (o, e) => .ok (evs ++ [CleanupEvent.logStdout o, CleanupEvent.logStderr e])

/-- The cleanup action as runAsync registers it: the buffers exist exactly
when the readiness marker is non-empty (vcs.go lines 217-224). -/
def runAsyncCleanup (checkFor : String) (processStarted : Bool)
    (outBuf errBuf : String) (timedOut : Bool) : CleanupResult :=
  cleanupAction processStarted
    (if checkFor = "" then none else some (outBuf, errBuf)) timedOut

/-- A run in which the daemon never exits, writes a sentinel to stdout, and
never emits the readiness marker on either stream. -/
def obsStdoutOnly : Nat → PollObs :=
  fun _ => ⟨false, "OUT_SENTINEL", ""⟩

/-! ## Model of the Go time library surface used by gitVcsHandle.Commit

Commit (vcs.go lines 168-182) calls time.Parse with the layout
"2006-01-02 15:04:05 -0700", then tm.UTC().Format(time.RFC3339).  Those
functions are Go standard library, modelled here at their interface:
a parsed Time is its civil fields plus the zone offset, its instant is the
count of seconds since 0000-01-01T00:00:00Z in the proleptic Gregorian
calendar, and formatting prints the civil fields of the instant in UTC.
The model covers instants at or after year 0 UTC, which includes every
timestamp a version-control backend can emit; Go's handling of negative
years differs and is outside the claims. -/

/-- Gregorian leap-year rule (as in Go time.isLeap). -/
def isLeap (y : Nat) : Bool :=
  y % 4 == 0 && (y % 100 != 0 || y % 400 == 0)

/-- Number of leap years k with k < y (year 0 counts as leap). -/
def leapsBefore (y : Nat) : Nat :=
  (y + 3) / 4 + (y + 399) / 400 - (y + 99) / 100

/-- Days in year y. -/
def yearLen (y : Nat) : Nat :=
  if isLeap y then 366 else 365

/-- Days from 0000-01-01 to the start of year y. -/
def yearDays (y : Nat) : Nat :=
  365 * y + leapsBefore y

/-- Days in month m (1..12) of a year with the given leap flag. -/
def monthDays (leap : Bool) (m : Nat) : Nat :=
  match m with
  | 1 => 31
  | 2 => if leap then 29 else 28
  | 3 => 31
  | 4 => 30
  | 5 => 31
  | 6 => 30
  | 7 => 31
  | 8 => 31
  | 9 => 30
  | 10 => 31
  | 11 => 30
  | 12 => 31
  | _ => 0

/-- Days from the start of the year to the start of month m (1..12). -/
def daysBeforeMonth (leap : Bool) : Nat → Nat
  | 0 => 0
  | m + 1 => daysBeforeMonth leap m + monthDays leap m

/-- Day number of the civil date y-m-d (m, d one-based). -/
def toDays (y m d : Nat) : Nat :=
  yearDays y + daysBeforeMonth (isLeap y) m + (d - 1)

/-- Walk the months of a year to split a day-of-year into month and day. -/
def ofDoyGo (leap : Bool) : Nat → Nat → Nat → Nat × Nat
  | m, doy, 0 => (m, doy + 1)
  | m, doy, fuel + 1 =>
    if doy < monthDays leap m then (m, doy + 1)
    else ofDoyGo leap (m + 1) (doy - monthDays leap m) fuel

/-- Month and day of a day-of-year (zero-based) of a year. -/
def ofDoy (leap : Bool) (doy : Nat) : Nat × Nat :=
  ofDoyGo leap 1 doy 11

/-- Binary search for the greatest y with yearDays y ≤ z. -/
def findYearGo (z : Nat) : Nat → Nat → Nat → Nat
  | lo, _, 0 => lo
  | lo, hi, fuel + 1 =>
    if hi - lo ≤ 1 then lo
    else if yearDays ((lo + hi) / 2) ≤ z then findYearGo z ((lo + hi) / 2) hi fuel
    else findYearGo z lo ((lo + hi) / 2) fuel

/-- The year containing day number z (for z below yearDays 16384). -/
def findYear (z : Nat) : Nat :=
  findYearGo z 0 16384 14

/-- Civil date (year, month, day) of day number z. -/
def ofDays (z : Nat) : Nat × Nat × Nat :=
  let y := findYear z
  let md := ofDoy (isLeap y) (z - yearDays y)
  (y, md.1, md.2)

/-- A Go time.Time as Commit sees one: civil fields plus the zone offset in
minutes east of UTC. -/
structure GoTime where
  year : Nat
  month : Nat
  day : Nat
  hour : Nat
  minute : Nat
  second : Nat
  offMin : Int
deriving DecidableEq

/-- The instant a GoTime denotes: seconds since 0000-01-01T00:00:00Z. -/
def goInstant (t : GoTime) : Int :=
  (toDays t.year t.month t.day : Int) * 86400 +
    ((3600 * t.hour + 60 * t.minute + t.second : Nat) : Int) - 60 * t.offMin

/-- Numeric value of a decimal digit character. -/
def readDigit (c : Char) : Option Nat :=
  if c.isDigit then some (c.toNat - 48) else none

/-- Read exactly two decimal digits. -/
def read2 : List Char → Option (Nat × List Char)
  | c1 :: c2 :: rest =>
    match readDigit c1, readDigit c2 with
    | some a, some b => some (10 * a + b, rest)
    | _, _ => none
  | _ => none

/-- Read exactly four decimal digits. -/
def read4 : List Char → Option (Nat × List Char)
  | c1 :: c2 :: c3 :: c4 :: rest =>
    match readDigit c1, readDigit c2, readDigit c3, readDigit c4 with
    | some a, some b, some c, some d => some (1000 * a + 100 * b + 10 * c + d, rest)
    | _, _, _, _ => none
  | _ => none

/-- Consume one expected character. -/
def expectCh (c : Char) : List Char → Option (List Char)
  | d :: rest => if d = c then some rest else none
  | [] => none

/-- The date-and-clock prefix shared by the two layouts, with the given
date/clock separator: reads YYYY-MM-DD, the separator, then HH:MM:SS. -/
def readDateClock (sepT : Char) (cs : List Char) :
    Option (Nat × Nat × Nat × Nat × Nat × Nat × List Char) := do
  let (y, cs) ← read4 cs
  let cs ← expectCh '-' cs
  let (mo, cs) ← read2 cs
  let cs ← expectCh '-' cs
  let (d, cs) ← read2 cs
  let cs ← expectCh sepT cs
  let (h, cs) ← read2 cs
  let cs ← expectCh ':' cs
  let (mi, cs) ← read2 cs
  let cs ← expectCh ':' cs
  let (s, cs) ← read2 cs
  some (y, mo, d, h, mi, s, cs)

/-- A ±hhmm numeric zone, as in the layout token -0700: the offset in
minutes east of UTC. -/
def readZoneNum (cs : List Char) : Option (Int × List Char) :=
  match cs with
  | sign :: rest =>
    if sign = '+' ∨ sign = '-' then
      match read2 rest with
      | some (oh, rest) =>
        match read2 rest with
        | some (om, rest) =>
          some ((if sign = '+' then 1 else -1) * ((60 * oh + om : Nat) : Int), rest)
        | none => none
      | none => none
    else none
  | [] => none

/-- The RFC 3339 zone: the literal Z, or a ±hh:mm offset. -/
def readZoneRFC (cs : List Char) : Option (Int × List Char) :=
  match cs with
  | 'Z' :: rest => some ((0 : Int), rest)
  | sign :: rest =>
    if sign = '+' ∨ sign = '-' then
      match read2 rest with
      | some (oh, rest) =>
        match expectCh ':' rest with
        | some rest =>
          match read2 rest with
          | some (om, rest) =>
            some ((if sign = '+' then 1 else -1) * ((60 * oh + om : Nat) : Int), rest)
          | none => none
        | none => none
      | none => none
    else none
  | [] => none

/-- The range checks Go time.Parse performs on the parsed fields: month
1..12, day valid for the month and year, hour below 24, minute and second
below 60. -/
abbrev validCivil (y mo d h mi s : Nat) : Prop :=
  1 ≤ mo ∧ mo ≤ 12 ∧ 1 ≤ d ∧ d ≤ monthDays (isLeap y) mo ∧ h < 24 ∧ mi < 60 ∧ s < 60

/-- Go time.Parse with layout "2006-01-02 15:04:05 -0700": fixed-width
fields, a space before the mandatory signed hhmm zone, and the range
checks above; the whole input must be consumed. -/
def parseGitTimeL (cs : List Char) : Option GoTime :=
  match readDateClock ' ' cs with
  | none => none
  | some (y, mo, d, h, mi, s, cs) =>
    match expectCh ' ' cs with
    | none => none
    | some cs =>
      match readZoneNum cs with
      | none => none
      | some (offMin, cs) =>
        if cs = [] ∧ validCivil y mo d h mi s then some ⟨y, mo, d, h, mi, s, offMin⟩
        else none

/-- Go time.Parse with the time.RFC3339 layout "2006-01-02T15:04:05Z07:00":
a T separator and a Z-or-signed-hh:mm zone, with the same range checks. -/
def rfc3339ParseL (cs : List Char) : Option GoTime :=
  match readDateClock 'T' cs with
  | none => none
  | some (y, mo, d, h, mi, s, cs) =>
    match readZoneRFC cs with
    | none => none
    | some (offMin, cs) =>
      if cs = [] ∧ validCivil y mo d h mi s then some ⟨y, mo, d, h, mi, s, offMin⟩
      else none

/-- Decimal digit character of n (n below 10). -/
def toDigitChar (n : Nat) : Char :=
  Char.ofNat (48 + n)

/-- Two-digit zero-padded decimal. -/
def pad2 (n : Nat) : List Char :=
  [toDigitChar (n / 10 % 10), toDigitChar (n % 10)]

/-- Four-digit zero-padded decimal. -/
def pad4 (n : Nat) : List Char :=
  [toDigitChar (n / 1000 % 10), toDigitChar (n / 100 % 10),
    toDigitChar (n / 10 % 10), toDigitChar (n % 10)]

/-- The civil UTC fields of an instant (seconds since year 0 UTC). -/
def civilOfInstant (i : Int) : GoTime :=
  let n := i.toNat
  let sod := n % 86400
  let ymd := ofDays (n / 86400)
  ⟨ymd.1, ymd.2.1, ymd.2.2, sod / 3600, sod % 3600 / 60, sod % 60, 0⟩

/-- tm.UTC().Format(time.RFC3339) of an instant: the civil UTC fields,
zero padded, with the literal Z zone suffix. -/
def rfc3339FormatUTC (i : Int) : List Char :=
  let t := civilOfInstant i
  pad4 t.year ++ '-' :: pad2 t.month ++ '-' :: pad2 t.day ++
    'T' :: pad2 t.hour ++ ':' :: pad2 t.minute ++ ':' :: pad2 t.second ++ ['Z']

/-! ## Commit output parsing (vcs.go lines 168-182) -/

/-- Go unicode.IsSpace for the Latin-1 range that strings.TrimSpace trims. -/
def goIsSpace (c : Char) : Bool :=
  c = ' ' || c = '\t' || c = '\n' || c = '\x0b' || c = '\x0c' || c = '\r' ||
    c = '\u0085' || c = '\u00A0'

/-- Go strings.TrimSpace on character lists. -/
def goTrimSpace (cs : List Char) : List Char :=
  ((cs.dropWhile goIsSpace).reverse.dropWhile goIsSpace).reverse

/-- Go strings.Split(s, sep) for a one-character separator: the substrings
between occurrences of sep; always at least one element. -/
def goSplit (sep : Char) : List Char → List (List Char)
  | [] => [[]]
  | c :: rest =>
    if c = sep then [] :: goSplit sep rest
    else
      match goSplit sep rest with
      | [] => [[c]]
      | g :: gs => (c :: g) :: gs

/-- How Commit aborts on malformed backend output: ss[1] on a one-element
slice is a Go runtime index-out-of-range panic (an uncontrolled abort),
while a timestamp that fails time.Parse reaches the explicit
panic("Failed to parse time: ...") on vcs.go line 178. -/
inductive CommitAbort where
  | indexOutOfRange
  | timeParsePanic (tsField : List Char)
deriving DecidableEq

/-- The parsing tail of gitVcsHandle.Commit (vcs.go lines 171-181), applied
to the combined output of the git show command: trim space, split on the
field separator, index fields 0 and 1, parse the timestamp, and on success
return the revision together with the RFC 3339 UTC rendering of the commit
time. -/
def commitParseOutput (out : List Char) : Except CommitAbort (List Char × List Char) :=
  let line := goTrimSpace out
  let ss := goSplit '@' line
  match ss.get? 0 with
  | none => .error .indexOutOfRange
  | some rev =>
    match ss.get? 1 with
    | none => .error .indexOutOfRange
    | some tsField =>
      match parseGitTimeL tsField with
      | none => .error (.timeParsePanic tsField)
      | some tm => .ok (rev, rfc3339FormatUTC (goInstant tm))

/-! ## Theorems for claims C1, C7, C10, C5 -/

/-- C1.  For every HTTP GET request: after stripping one leading slash from
the request path, if some registered handle's package path is a prefix of
the cleaned path then the server responds 200 with exactly the go-import
meta document built from the matched handle's package path (followed by a
newline), and if no registered handle's package path is a prefix of the
cleaned path it responds 404 with the plain-text body "repo not found". -/
theorem serveHTTP_spec (h : HttpHandlerM) (urlPath : String) :
    ((∀ u ∈ h.handles, ¬ goHasPrefix (trimLeadingSlash urlPath) u.importPath) →
      serveHTTP h urlPath = (404, repoNotFoundBody)) ∧
    ((∃ u ∈ h.handles, goHasPrefix (trimLeadingSlash urlPath) u.importPath) →
      ∃ u ∈ h.handles, goHasPrefix (trimLeadingSlash urlPath) u.importPath ∧
        serveHTTP h urlPath = (200, goImportBody h u.importPath)) := by
  constructor
  · intro hnone
    have hfind : h.handles.find? (fun t => goHasPrefix (trimLeadingSlash urlPath) t.importPath) = none := by
      rw [List.find?_eq_none]
      intro u hu
      simpa using hnone u hu
    simp [serveHTTP, hfind]
  · intro hex
    cases hfind : h.handles.find? (fun t => goHasPrefix (trimLeadingSlash urlPath) t.importPath) with
    | none =>
      rw [List.find?_eq_none] at hfind
      obtain ⟨u, hu, hpre⟩ := hex
      exact absurd (by simpa using hpre) (by simpa using hfind u hu)
    | some t =>
      refine ⟨t, List.mem_of_find?_eq_some hfind, ?_, ?_⟩
      · simpa using List.find?_some hfind
      · simp [serveHTTP, hfind]

/-- Witness for C1: a concrete one-handle table answers 404 on an unmatched
path and 200 with the meta document on a matched one. -/
theorem serveHTTP_spec_witness :
    serveHTTP handlerA "/other.org/pkg" = (404, repoNotFoundBody) ∧
    (∃ u ∈ handlerA.handles,
      goHasPrefix (trimLeadingSlash "/example.org/mod/sub") u.importPath ∧
        serveHTTP handlerA "/example.org/mod/sub" =
          (200, goImportBody handlerA u.importPath)) :=
  ⟨(serveHTTP_spec handlerA "/other.org/pkg").1 (by decide),
   (serveHTTP_spec handlerA "/example.org/mod/sub").2 (by decide)⟩

/-- C7.  After a handle's entry is deleted from the routing table, every
request whose cleaned path had no other registered handle's package path as
a prefix yields 404: no stale routing to the removed handle. -/
theorem removeM_no_stale_routing (h : HttpHandlerM) (v : VcsHandleM) (urlPath : String)
    (honly : ∀ u ∈ h.handles,
      goHasPrefix (trimLeadingSlash urlPath) u.importPath → u.importPath = v.importPath) :
    serveHTTP (removeM h v.importPath) urlPath = (404, repoNotFoundBody) := by
  apply (serveHTTP_spec (removeM h v.importPath) urlPath).1
  intro u hu
  have hmem : u ∈ h.handles ∧ u.importPath ≠ v.importPath := by
    have := List.mem_filter.mp hu
    exact ⟨this.1, by simpa using this.2⟩
  intro hpre
  exact hmem.2 (honly u hmem.1 hpre)

/-- Witness for C7: removing the only matching handle turns a previously
matched concrete request into a 404. -/
theorem removeM_no_stale_routing_witness :
    serveHTTP (removeM handlerB "example.org/mod") "/example.org/mod/sub" =
      (404, repoNotFoundBody) :=
  removeM_no_stale_routing handlerB ⟨"example.org/mod", 0⟩ "/example.org/mod/sub"
    (by decide)

/-- C10.  The routing table is a map keyed by package path: if its keys are
pairwise distinct then after Setup of a handle v the keys are still pairwise
distinct, v is registered, and every entry sharing v's package path is v
itself, so a same-key Setup silently replaces the previous handle
(last registered wins) instead of failing or keeping both.  Removal also
preserves key distinctness. -/
theorem setupM_replaces_same_key (h : HttpHandlerM) (v : VcsHandleM) (pkg : String)
    (hnd : (routingKeys h).Nodup) :
    (routingKeys (setupM h v)).Nodup ∧
    v ∈ (setupM h v).handles ∧
    (∀ u ∈ (setupM h v).handles, u.importPath = v.importPath → u = v) ∧
    (routingKeys (removeM h pkg)).Nodup := by
  refine ⟨?_, ?_, ?_, ?_⟩
  · simp only [routingKeys, setupM, mapInsert, List.map_cons, List.nodup_cons]
    constructor
    · intro hmem
      obtain ⟨u, hu, hequ⟩ := List.mem_map.mp hmem
      exact absurd hequ (by simpa using (List.mem_filter.mp hu).2)
    · exact List.Nodup.sublist ((List.filter_sublist _).map _) hnd
  · exact List.mem_cons_self _ _
  · intro u hu hkey
    rcases List.mem_cons.mp hu with hv | hmem
    · exact hv
    · exact absurd hkey (by simpa using (List.mem_filter.mp hmem).2)
  · exact List.Nodup.sublist ((List.filter_sublist _).map _) hnd

/-- Witness for C10: inserting a second handle under an already-registered
key replaces the first handle, and key distinctness is preserved. -/
theorem setupM_replaces_same_key_witness :
    (routingKeys (setupM handlerA ⟨"example.org/mod", 1⟩)).Nodup ∧
    (⟨"example.org/mod", 1⟩ : VcsHandleM) ∈ (setupM handlerA ⟨"example.org/mod", 1⟩).handles ∧
    (∀ u ∈ (setupM handlerA ⟨"example.org/mod", 1⟩).handles,
      u.importPath = (⟨"example.org/mod", 1⟩ : VcsHandleM).importPath →
        u = ⟨"example.org/mod", 1⟩) ∧
    (routingKeys (removeM handlerA "example.org/mod")).Nodup :=
  setupM_replaces_same_key handlerA ⟨"example.org/mod", 1⟩ "example.org/mod" (by decide)

/-- C5.  When the TCP listener cannot be acquired, NewHttpHandler returns
nil: it neither aborts the test nor attempts a fallback transport.  The nil
return is the non-fatal signal the callers (outside this file) turn into a
test skip. -/
theorem newHttpHandler_listen_failure (execPath vcsName : String) (portResult : Option Nat) :
    newHttpHandler none execPath vcsName portResult = .nilHandler := rfl

/-! ## Helper lemmas about containsSub and the polling loop -/

/-- A list is a prefix of itself followed by anything. -/
theorem isPrefixOf_append_self (l r : List Char) : l.isPrefixOf (l ++ r) = true := by
  induction l with
  | nil => simp [List.isPrefixOf]
  | cons c t ih => simp [List.isPrefixOf, ih]

/-- String append acts componentwise on the character lists. -/
theorem strDataAppend (s t : String) : (s ++ t).data = s.data ++ t.data := rfl

/-- containsSub is stable under prepending more text. -/
theorem containsSub_prepend (p t sub : List Char) (h : containsSub t sub = true) :
    containsSub (p ++ t) sub = true := by
  induction p with
  | nil => simpa using h
  | cons c p ih => simp [containsSub, ih]

/-- containsSub finds the sublist at the front. -/
theorem containsSub_front (q sub : List Char) : containsSub (sub ++ q) sub = true := by
  cases sub with
  | nil => cases q <;> simp [containsSub, List.isPrefixOf]
  | cons a t =>
    show containsSub ((a :: t) ++ q) (a :: t) = true
    simp [containsSub, isPrefixOf_append_self]

/-- The exhaustion message of vcs.go line 261 contains the stderr buffer. -/
theorem noMarkerMsg_contains_stderr (checkFor execPath : String) (args : List String)
    (errBuf : String) :
    strContains (noMarkerMsg checkFor execPath args errBuf) errBuf = true := by
  show containsSub _ _ = true
  simp only [noMarkerMsg, strDataAppend, List.append_assoc]
  exact containsSub_prepend _ _ _ (containsSub_prepend _ _ _ (containsSub_prepend _ _ _
    (containsSub_prepend _ _ _ (containsSub_prepend _ _ _ (containsSub_prepend _ _ _
      (containsSub_prepend _ _ _ (containsSub_front _ _)))))))

/-- The polling loop only consults the observations of its own attempts. -/
theorem pollGo_congr (checkFor execPath : String) (args : List String) :
    ∀ rem i (obs obs' : Nat → PollObs), (∀ j, i ≤ j → j ≤ i + rem → obs j = obs' j) →
      pollGo checkFor execPath args obs i rem = pollGo checkFor execPath args obs' i rem := by
  intro rem
  induction rem with
  | zero =>
    intro i obs obs' hagree
    simp [pollGo, hagree i le_rfl (by omega)]
  | succ rem ih =>
    intro i obs obs' hagree
    have hi : obs i = obs' i := hagree i le_rfl (by omega)
    simp only [pollGo, hi]
    split
    · rfl
    · split
      · rfl
      · split
        · rfl
        · exact ih (i + 1) obs obs' (fun j h1 h2 => hagree j (by omega) (by omega))

/-- A quiet attempt (no exit observed, no marker in either buffer) passes
control to the next attempt. -/
theorem pollGo_step (checkFor execPath : String) (args : List String)
    (obs : Nat → PollObs) (i rem : Nat) (hex : (obs i).exited = false)
    (hhit : hitAt checkFor obs i = false) :
    pollGo checkFor execPath args obs i (rem + 1) =
      pollGo checkFor execPath args obs (i + 1) rem := by
  have h := hhit
  simp only [hitAt, Bool.or_eq_false_iff] at h
  simp [pollGo, hex, h.1, h.2]

/-- Quiet attempts advance the loop from attempt 0 to attempt i. -/
theorem pollGo_advance (checkFor execPath : String) (args : List String)
    (obs : Nat → PollObs) :
    ∀ i, i ≤ 100 →
      (∀ j, j < i → (obs j).exited = false ∧ hitAt checkFor obs j = false) →
      pollGo checkFor execPath args obs 0 100 =
        pollGo checkFor execPath args obs i (100 - i) := by
  intro i
  induction i with
  | zero => intro _ _; rfl
  | succ i ih =>
    intro hle hquiet
    have hstep := ih (by omega) (fun j hj => hquiet j (by omega))
    rw [hstep]
    have hsplit : 100 - i = (100 - (i + 1)) + 1 := by omega
    rw [hsplit]
    exact pollGo_step checkFor execPath args obs i _ (hquiet i (by omega)).1
      (hquiet i (by omega)).2

/-- If every attempt from i on (rem of them) is quiet, the loop exhausts
its budget and fails with the exhaustion message read at the end. -/
theorem pollGo_quiet (checkFor execPath : String) (args : List String)
    (obs : Nat → PollObs) :
    ∀ rem i, (∀ j, i ≤ j → j < i + rem → (obs j).exited = false ∧ hitAt checkFor obs j = false) →
      pollGo checkFor execPath args obs i rem =
        .fatal (noMarkerMsg checkFor execPath args (obs (i + rem)).errBuf) := by
  intro rem
  induction rem with
  | zero => intro i _; simp [pollGo]
  | succ rem ih =>
    intro i hquiet
    have hq := hquiet i le_rfl (by omega)
    rw [pollGo_step checkFor execPath args obs i rem hq.1 hq.2]
    rw [ih (i + 1) (fun j h1 h2 => hquiet j (by omega) (by omega))]
    have : i + 1 + rem = i + (rem + 1) := by omega
    rw [this]

/-- C8.  With a non-empty readiness marker the polling loop is bounded: it
consults at most the observations of attempts 0..100 (100 attempts at 10ms
plus the final stderr read), each attempt first checks the exit flag and
fails fatally with both captured buffers in the diagnostic, and otherwise
returns successfully on the first attempt whose buffers contain the
marker. -/
theorem runAsyncPoll_bounded_first_hit (checkFor execPath : String) (args : List String)
    (obs : Nat → PollObs) (hne : checkFor ≠ "") :
    (∀ obs' : Nat → PollObs, (∀ j, j ≤ 100 → obs j = obs' j) →
      runAsyncPoll checkFor execPath args obs = runAsyncPoll checkFor execPath args obs') ∧
    (∀ i, i < 100 →
      (∀ j, j < i → (obs j).exited = false ∧ hitAt checkFor obs j = false) →
      (obs i).exited = true →
      runAsyncPoll checkFor execPath args obs =
        .fatal (fatalStopMsg execPath args (obs i).outBuf (obs i).errBuf)) ∧
    (∀ i, i < 100 →
      (∀ j, j < i → (obs j).exited = false ∧ hitAt checkFor obs j = false) →
      (obs i).exited = false → hitAt checkFor obs i = true →
      runAsyncPoll checkFor execPath args obs = .success) := by
  refine ⟨?_, ?_, ?_⟩
  · intro obs' hagree
    simp only [runAsyncPoll, if_neg hne]
    exact pollGo_congr checkFor execPath args 100 0 obs obs'
      (fun j h1 h2 => hagree j (by omega))
  · intro i hi hquiet hex
    simp only [runAsyncPoll, if_neg hne]
    rw [pollGo_advance checkFor execPath args obs i (by omega) hquiet]
    have hsplit : 100 - i = (100 - (i + 1)) + 1 := by omega
    rw [hsplit]
    simp [pollGo, hex]
  · intro i hi hquiet hex hhit
    simp only [runAsyncPoll, if_neg hne]
    rw [pollGo_advance checkFor execPath args obs i (by omega) hquiet]
    have hsplit : 100 - i = (100 - (i + 1)) + 1 := by omega
    rw [hsplit]
    rcases Bool.or_eq_true_iff.mp (by simpa [hitAt] using hhit) with h | h
    · simp [pollGo, hex, h]
    · simp [pollGo, hex, h]

/-- Witness for C8: a daemon that emits the marker on stderr at attempt 2
makes the supervisor return successfully, applied at a concrete run. -/
theorem runAsyncPoll_bounded_first_hit_witness :
    runAsyncPoll " Ready " "/usr/bin/git" ["daemon"]
      (fun j => if j < 2 then ⟨false, "", ""⟩ else ⟨false, "", "x Ready x"⟩) = .success :=
  (runAsyncPoll_bounded_first_hit " Ready " "/usr/bin/git" ["daemon"]
      (fun j => if j < 2 then ⟨false, "", ""⟩ else ⟨false, "", "x Ready x"⟩)
      (by decide)).2.2 2 (by decide)
    (by intro j hj; interval_cases j <;> exact ⟨rfl, by decide⟩)
    (by decide) (by decide)

/-- C3 counterexample.  A run that never exits and never emits the marker,
with a sentinel in the captured stdout buffer: the exhaustion diagnostic of
vcs.go line 261 does not contain the stdout buffer, so the claim that it
reports both captured buffers is false of the code (the Fatalf there passes
only bufErr.Bytes()). -/
theorem runAsyncPoll_exhaust_cex :
    runAsyncPoll " Ready " "/usr/bin/git" ["daemon"] obsStdoutOnly =
      .fatal (noMarkerMsg " Ready " "/usr/bin/git" ["daemon"] "") ∧
    strContains (noMarkerMsg " Ready " "/usr/bin/git" ["daemon"] "") "OUT_SENTINEL" = false := by
  constructor
  · have h := pollGo_quiet " Ready " "/usr/bin/git" ["daemon"] obsStdoutOnly 100 0
      (fun j _ _ => ⟨rfl, rfl⟩)
    simpa [runAsyncPoll] using h
  · decide

/-- C3 as amended.  When the marker is non-empty and all 100 attempts pass
without an exit observation or a marker hit in either buffer, the loop
fails fatally and its diagnostic contains the captured stderr buffer (the
stdout buffer is not part of that message). -/
theorem runAsyncPoll_exhaust_reports_stderr (checkFor execPath : String)
    (args : List String) (obs : Nat → PollObs) (hne : checkFor ≠ "")
    (hquiet : ∀ i, i < 100 → (obs i).exited = false ∧ hitAt checkFor obs i = false) :
    runAsyncPoll checkFor execPath args obs =
      .fatal (noMarkerMsg checkFor execPath args (obs 100).errBuf) ∧
    strContains (noMarkerMsg checkFor execPath args (obs 100).errBuf)
      ((obs 100).errBuf) = true := by
  constructor
  · have h := pollGo_quiet checkFor execPath args obs 100 0
      (fun j _ hj => hquiet j (by omega))
    simpa [runAsyncPoll, hne] using h
  · exact noMarkerMsg_contains_stderr checkFor execPath args ((obs 100).errBuf)

/-- Witness for C3 as amended: the quiet run with a stderr sentinel ends in
the exhaustion diagnostic, which contains that stderr buffer. -/
theorem runAsyncPoll_exhaust_reports_stderr_witness :
    runAsyncPoll " Ready " "/usr/bin/git" ["daemon"] (fun _ => ⟨false, "", "ERR_SENTINEL"⟩) =
      .fatal (noMarkerMsg " Ready " "/usr/bin/git" ["daemon"] "ERR_SENTINEL") ∧
    strContains (noMarkerMsg " Ready " "/usr/bin/git" ["daemon"] "ERR_SENTINEL")
      "ERR_SENTINEL" = true :=
  runAsyncPoll_exhaust_reports_stderr " Ready " "/usr/bin/git" ["daemon"]
    (fun _ => ⟨false, "", "ERR_SENTINEL"⟩) (by decide)
    (fun i _ => ⟨rfl, rfl⟩)

/-- C4 counterexample.  runAsync with an empty readiness marker leaves buf
and bufErr nil (vcs.go lines 217-224); when the cleanup action then runs on
a started process, the Logf argument buf.Bytes() on line 245 dereferences a
nil pointer: the action crashes after sending the interrupt, so the claim
that every registered cleanup invocation never crashes and always logs both
buffers is false of the code. -/
theorem runAsyncCleanup_nil_buffer_cex :
    runAsyncCleanup "" true "ignored" "ignored" false =
      .nilBufferPanic [CleanupEvent.signalInterrupt] := by
  decide

/-- C4 as amended.  For cleanup actions registered by a runAsync whose
readiness marker was non-empty (so the buffers exist): if the process was
never started the action returns at once, sending no signal at all; if the
process was started — whether the graceful wait completed, the 300ms
timeout forced a kill, or the process had already exited before cleanup ran
— the action does not crash and ends by logging the captured stdout buffer
and then the captured stderr buffer. -/
theorem runAsyncCleanup_spec (checkFor outBuf errBuf : String) (started timedOut : Bool)
    (hne : checkFor ≠ "") :
    (started = false → runAsyncCleanup checkFor started outBuf errBuf timedOut = .ok []) ∧
    (started = true → runAsyncCleanup checkFor started outBuf errBuf timedOut =
      .ok (CleanupEvent.signalInterrupt ::
        (if timedOut then [CleanupEvent.kill] else []) ++
          [CleanupEvent.logStdout outBuf, CleanupEvent.logStderr errBuf])) := by
  constructor
  · intro hs
    simp [runAsyncCleanup, cleanupAction, hs]
  · intro hs
    simp [runAsyncCleanup, cleanupAction, hs, hne]

/-- Witness for C4 as amended: a concrete timed-out cleanup of a started
process signals, kills, and logs both buffers. -/
theorem runAsyncCleanup_spec_witness :
    runAsyncCleanup " Ready " true "out text" "err text" true =
      .ok [CleanupEvent.signalInterrupt, CleanupEvent.kill,
        CleanupEvent.logStdout "out text", CleanupEvent.logStderr "err text"] :=
  (runAsyncCleanup_spec " Ready " "out text" "err text" true true (by decide)).2 rfl

/-! ## Calendar lemmas for the time model -/

/-- One more year adds one leap day exactly for leap years. -/
theorem leapsBefore_succ (y : Nat) :
    leapsBefore (y + 1) = leapsBefore y + (if isLeap y then 1 else 0) := by
  by_cases h4 : y % 4 = 0 <;> by_cases h100 : y % 100 = 0 <;> by_cases h400 : y % 400 = 0 <;>
    simp [leapsBefore, isLeap, h4, h100, h400] <;> omega

/-- The day count to year y+1 is the day count to y plus the length of y. -/
theorem yearDays_succ (y : Nat) : yearDays (y + 1) = yearDays y + yearLen y := by
  simp only [yearDays, yearLen, leapsBefore_succ]
  split <;> omega

/-- Every year is at least 365 days long. -/
theorem yearLen_ge (y : Nat) : 365 ≤ yearLen y := by
  simp only [yearLen]
  split <;> omega

/-- Day counts to year starts are monotone. -/
theorem yearDays_mono {a b : Nat} (h : a ≤ b) : yearDays a ≤ yearDays b := by
  induction b with
  | zero => simp [Nat.le_zero.mp h]
  | succ b ih =>
    rcases Nat.lt_or_ge a (b + 1) with hlt | hge
    · have := ih (by omega)
      have := yearLen_ge b
      rw [yearDays_succ]
      omega
    · have : a = b + 1 := by omega
      simp [this]

/-- The year length is the day count to the start of month 13. -/
theorem daysBeforeMonth_thirteen (leap : Bool) :
    daysBeforeMonth leap 13 = (if leap then 366 else 365) := by
  cases leap <;> decide

/-- Correctness of the month walk: starting at month m with fuel reaching
month 12, a day offset that stays inside the year is split into a valid
month and day with the right cumulative day count. -/
theorem ofDoyGo_correct (leap : Bool) :
    ∀ fuel m doy, 1 ≤ m → m + fuel = 12 →
      doy + daysBeforeMonth leap m < daysBeforeMonth leap 13 →
      1 ≤ (ofDoyGo leap m doy fuel).1 ∧ (ofDoyGo leap m doy fuel).1 ≤ 12 ∧
      1 ≤ (ofDoyGo leap m doy fuel).2 ∧
      (ofDoyGo leap m doy fuel).2 ≤ monthDays leap (ofDoyGo leap m doy fuel).1 ∧
      daysBeforeMonth leap (ofDoyGo leap m doy fuel).1 + ((ofDoyGo leap m doy fuel).2 - 1) =
        daysBeforeMonth leap m + doy := by
  intro fuel
  induction fuel with
  | zero =>
    intro m doy hm1 hm12 hin
    have hm : m = 12 := by omega
    subst hm
    have h13 : daysBeforeMonth leap 13 = daysBeforeMonth leap 12 + monthDays leap 12 := rfl
    simp only [ofDoyGo]
    refine ⟨by omega, by omega, by omega, ?_, by omega⟩
    simp only [h13] at hin
    omega
  | succ fuel ih =>
    intro m doy hm1 hm12 hin
    simp only [ofDoyGo]
    split
    · rename_i hlt2
      dsimp only
      refine ⟨by omega, by omega, by omega, by omega, by omega⟩
    · rename_i hge
      have hstep : daysBeforeMonth leap (m + 1) = daysBeforeMonth leap m + monthDays leap m := rfl
      have := ih (m + 1) (doy - monthDays leap m) (by omega) (by omega) (by omega)
      refine ⟨this.1, this.2.1, this.2.2.1, this.2.2.2.1, ?_⟩
      rw [this.2.2.2.2]
      omega

/-- Correctness of the year binary search: within a bracketing interval
whose width fits the fuel, it returns the year whose days bracket z. -/
theorem findYearGo_correct (z : Nat) :
    ∀ fuel lo hi, lo < hi → hi - lo ≤ 2 ^ fuel →
      yearDays lo ≤ z → z < yearDays hi →
      yearDays (findYearGo z lo hi fuel) ≤ z ∧
      z < yearDays (findYearGo z lo hi fuel + 1) ∧
      lo ≤ findYearGo z lo hi fuel ∧ findYearGo z lo hi fuel < hi := by
  intro fuel
  induction fuel with
  | zero =>
    intro lo hi hlt hw hlo hhi
    have hhi1 : hi = lo + 1 := by omega
    subst hhi1
    simp only [findYearGo]
    exact ⟨hlo, hhi, le_rfl, by omega⟩
  | succ fuel ih =>
    intro lo hi hlt hw hlo hhi
    simp only [findYearGo]
    split
    · rename_i hnarrow
      have hhi1 : hi = lo + 1 := by omega
      subst hhi1
      exact ⟨hlo, hhi, le_rfl, by omega⟩
    · rename_i hwide
      have hp : (2 : Nat) ^ (fuel + 1) = 2 ^ fuel * 2 := pow_succ 2 fuel
      split
      · rename_i hmid
        have := ih ((lo + hi) / 2) hi (by omega) (by omega) hmid hhi
        exact ⟨this.1, this.2.1, by omega, this.2.2.2⟩
      · rename_i hmid
        have := ih lo ((lo + hi) / 2) (by omega) (by omega) hlo (by omega)
        exact ⟨this.1, this.2.1, this.2.2.1, by omega⟩

/-- ofDays inverts toDays on every day number below year 16384, and its
month and day are valid for its year. -/
theorem ofDays_correct (z : Nat) (hz : z < yearDays 16384) :
    toDays (ofDays z).1 (ofDays z).2.1 (ofDays z).2.2 = z ∧
    1 ≤ (ofDays z).2.1 ∧ (ofDays z).2.1 ≤ 12 ∧
    1 ≤ (ofDays z).2.2 ∧
    (ofDays z).2.2 ≤ monthDays (isLeap (ofDays z).1) (ofDays z).2.1 := by
  have hy := findYearGo_correct z 14 0 16384 (by omega) (by decide)
    (by simp [yearDays, leapsBefore]) hz
  set y := findYearGo z 0 16384 14 with hydef
  have hylen : z - yearDays y + daysBeforeMonth (isLeap y) 1 < daysBeforeMonth (isLeap y) 13 := by
    have hsucc := yearDays_succ y
    have h1 : daysBeforeMonth (isLeap y) 1 = 0 := rfl
    have h13 := daysBeforeMonth_thirteen (isLeap y)
    simp only [yearLen] at hsucc
    rw [h1, h13]
    split <;> rename_i hleap <;> simp [hleap] at hsucc <;> omega
  have hmd := ofDoyGo_correct (isLeap y) 11 1 (z - yearDays y) (by omega) (by omega) hylen
  have hres : ofDays z = (y, (ofDoyGo (isLeap y) 1 (z - yearDays y) 11).1,
      (ofDoyGo (isLeap y) 1 (z - yearDays y) 11).2) := by
    simp [ofDays, ofDoy, findYear, ← hydef]
  rw [hres]
  have h1 : daysBeforeMonth (isLeap y) 1 = 0 := rfl
  refine ⟨?_, hmd.1, hmd.2.1, hmd.2.2.1, hmd.2.2.2.1⟩
  simp only [toDays]
  have := hmd.2.2.2.2
  rw [h1] at this
  omega

/-- Day numbers below year 10000 get a four-digit year from ofDays. -/
theorem ofDays_year_lt (z : Nat) (hz : z < yearDays 10000) : (ofDays z).1 < 10000 := by
  have hy := findYearGo_correct z 14 0 16384 (by omega) (by decide)
    (by simp [yearDays, leapsBefore]) (by have : yearDays 10000 ≤ yearDays 16384 := yearDays_mono (by omega); omega)
  by_contra hge
  have : yearDays 10000 ≤ yearDays (ofDays z).1 := yearDays_mono (by omega)
  have hz1 : yearDays (ofDays z).1 ≤ z := by
    have hres : (ofDays z).1 = findYearGo z 0 16384 14 := by simp [ofDays, findYear]
    rw [hres]
    exact hy.1
  omega

/-! ## Digit and field round-trip lemmas -/

/-- Reading back a formatted digit. -/
theorem readDigit_toDigitChar : ∀ n, n < 10 → readDigit (toDigitChar n) = some n := by
  decide

/-- Reading back a two-digit zero-padded field. -/
theorem read2_pad2 (n : Nat) (h : n < 100) (rest : List Char) :
    read2 (pad2 n ++ rest) = some (n, rest) := by
  have h1 := readDigit_toDigitChar (n / 10 % 10) (by omega)
  have h2 := readDigit_toDigitChar (n % 10) (by omega)
  simp only [pad2, List.cons_append, List.nil_append, read2, h1, h2]
  have : 10 * (n / 10 % 10) + n % 10 = n := by omega
  rw [this]

/-- Reading back a four-digit zero-padded field. -/
theorem read4_pad4 (n : Nat) (h : n < 10000) (rest : List Char) :
    read4 (pad4 n ++ rest) = some (n, rest) := by
  have h1 := readDigit_toDigitChar (n / 1000 % 10) (by omega)
  have h2 := readDigit_toDigitChar (n / 100 % 10) (by omega)
  have h3 := readDigit_toDigitChar (n / 10 % 10) (by omega)
  have h4 := readDigit_toDigitChar (n % 10) (by omega)
  simp only [pad4, List.cons_append, List.nil_append, read4, h1, h2, h3, h4]
  have : 1000 * (n / 1000 % 10) + 100 * (n / 100 % 10) + 10 * (n / 10 % 10) + n % 10 = n := by
    omega
  rw [this]

/-- Consuming the expected character. -/
theorem expectCh_cons (c : Char) (rest : List Char) : expectCh c (c :: rest) = some rest := by
  simp [expectCh]

/-- Reading back a formatted date-and-clock prefix. -/
theorem readDateClock_format (sepT : Char) (y mo d h mi s : Nat) (rest : List Char)
    (hy : y < 10000) (hmo : mo < 100) (hd : d < 100) (hh : h < 100) (hmi : mi < 100)
    (hs : s < 100) :
    readDateClock sepT (pad4 y ++ '-' :: pad2 mo ++ '-' :: pad2 d ++
      sepT :: pad2 h ++ ':' :: pad2 mi ++ ':' :: pad2 s ++ rest) =
      some (y, mo, d, h, mi, s, rest) := by
  simp only [readDateClock, List.append_assoc, List.cons_append, read4_pad4 y hy,
    expectCh_cons, read2_pad2 mo hmo, read2_pad2 d hd, read2_pad2 h hh,
    read2_pad2 mi hmi, read2_pad2 s hs, Option.bind_eq_bind, Option.some_bind]

/-- No month is longer than 31 days. -/
theorem monthDays_le_31 (leap : Bool) (m : Nat) : monthDays leap m ≤ 31 := by
  unfold monthDays
  split <;> first | omega | (split <;> omega)

/-- The literal Z zone parses as offset zero. -/
theorem readZoneRFC_Z : readZoneRFC ['Z'] = some (0, []) := rfl

/-- Formatting an in-range instant as RFC 3339 UTC and parsing it back with
the RFC 3339 layout yields exactly its civil UTC fields, whose instant is
the original one. -/
theorem rfc3339_roundtrip (i : Int) (h0 : 0 ≤ i)
    (hb : i < (yearDays 10000 : Int) * 86400) :
    rfc3339ParseL (rfc3339FormatUTC i) = some (civilOfInstant i) ∧
    goInstant (civilOfInstant i) = i := by
  have hni : ((i.toNat : Int)) = i := Int.toNat_of_nonneg h0
  have hnb : i.toNat < yearDays 10000 * 86400 := by omega
  have hz : i.toNat / 86400 < yearDays 10000 := Nat.div_lt_of_lt_mul (by omega)
  have h16 : i.toNat / 86400 < yearDays 16384 :=
    lt_of_lt_of_le hz (yearDays_mono (by omega))
  have hof := ofDays_correct (i.toNat / 86400) h16
  have hyr : (ofDays (i.toNat / 86400)).1 < 10000 := ofDays_year_lt (i.toNat / 86400) hz
  have hcivil : civilOfInstant i =
      ⟨(ofDays (i.toNat / 86400)).1, (ofDays (i.toNat / 86400)).2.1,
        (ofDays (i.toNat / 86400)).2.2, i.toNat % 86400 / 3600,
        i.toNat % 86400 % 3600 / 60, i.toNat % 86400 % 60, 0⟩ := rfl
  have hfmt : rfc3339FormatUTC i =
      pad4 (ofDays (i.toNat / 86400)).1 ++ '-' :: pad2 (ofDays (i.toNat / 86400)).2.1 ++
        '-' :: pad2 (ofDays (i.toNat / 86400)).2.2 ++ 'T' :: pad2 (i.toNat % 86400 / 3600) ++
        ':' :: pad2 (i.toNat % 86400 % 3600 / 60) ++ ':' :: pad2 (i.toNat % 86400 % 60) ++
        ['Z'] := rfl
  have hdc := readDateClock_format 'T' (ofDays (i.toNat / 86400)).1
    (ofDays (i.toNat / 86400)).2.1 (ofDays (i.toNat / 86400)).2.2
    (i.toNat % 86400 / 3600) (i.toNat % 86400 % 3600 / 60) (i.toNat % 86400 % 60) ['Z']
    hyr (by omega)
    (by have := monthDays_le_31 (isLeap (ofDays (i.toNat / 86400)).1) (ofDays (i.toNat / 86400)).2.1
        omega)
    (by omega) (by omega) (by omega)
  constructor
  · rw [hfmt, hcivil]
    simp only [rfc3339ParseL, hdc, readZoneRFC_Z]
    rw [if_pos]
    exact ⟨trivial, hof.2.1, hof.2.2.1, hof.2.2.2.1, hof.2.2.2.2, by omega, by omega, by omega⟩
  · rw [hcivil]
    simp only [goInstant]
    rw [hof.1]
    omega

/-- C6.  For every backend timestamp string the layout accepts, parsing it
and reformatting as RFC 3339 UTC (as Commit does) denotes the same instant:
parsing the RFC 3339 UTC result back yields a time with exactly the
original instant, at whole-second precision.  The instant is required to
fall in the four-digit-year UTC range (years 0..9999), which covers every
timestamp a version-control backend can produce. -/
theorem commitTime_roundtrip (s : List Char) (t : GoTime)
    (_hp : parseGitTimeL s = some t) (h0 : 0 ≤ goInstant t)
    (hb : goInstant t < (yearDays 10000 : Int) * 86400) :
    ∃ u, rfc3339ParseL (rfc3339FormatUTC (goInstant t)) = some u ∧
      goInstant u = goInstant t :=
  ⟨civilOfInstant (goInstant t), (rfc3339_roundtrip (goInstant t) h0 hb).1,
    (rfc3339_roundtrip (goInstant t) h0 hb).2⟩

/-- Witness for C6: the timestamp 2015-07-28 11:21:16 -0700 parses, its
instant is in range, and the round trip preserves the instant. -/
theorem commitTime_roundtrip_witness :
    parseGitTimeL "2015-07-28 11:21:16 -0700".data =
      some ⟨2015, 7, 28, 11, 21, 16, -420⟩ ∧
    (0 : Int) ≤ goInstant ⟨2015, 7, 28, 11, 21, 16, -420⟩ ∧
    goInstant ⟨2015, 7, 28, 11, 21, 16, -420⟩ < (yearDays 10000 : Int) * 86400 ∧
    ∃ u, rfc3339ParseL (rfc3339FormatUTC (goInstant ⟨2015, 7, 28, 11, 21, 16, -420⟩)) =
        some u ∧
      goInstant u = goInstant ⟨2015, 7, 28, 11, 21, 16, -420⟩ :=
  ⟨by decide, by decide, by decide,
    commitTime_roundtrip "2015-07-28 11:21:16 -0700".data ⟨2015, 7, 28, 11, 21, 16, -420⟩
      (by decide) (by decide) (by decide)⟩

/-! ## Lemmas about goSplit, and the Commit parsing claims -/

/-- Splitting a list that does not contain the separator gives it back as
the single field. -/
theorem goSplit_no_sep (sep : Char) : ∀ cs : List Char, sep ∉ cs → goSplit sep cs = [cs] := by
  intro cs
  induction cs with
  | nil => intro _; rfl
  | cons c rest ih =>
    intro hmem
    have h2 : sep ≠ c ∧ sep ∉ rest := by simpa [List.mem_cons, not_or] using hmem
    have hc : ¬ c = sep := fun h => h2.1 h.symm
    simp [goSplit, hc, ih h2.2]

/-- C2.  The three exits of the Commit output parser: a line without the
field separator dies with the uncontrolled index-out-of-range panic of
ss[1]; a line whose timestamp field fails time.Parse dies with the explicit
panic of vcs.go line 178; a line whose timestamp field parses yields the
revision and the RFC 3339 UTC commit time. -/
theorem commitParseOutput_spec (out : List Char) :
    ('@' ∉ goTrimSpace out → commitParseOutput out = .error .indexOutOfRange) ∧
    (∀ tf, (goSplit '@' (goTrimSpace out)).get? 1 = some tf → parseGitTimeL tf = none →
      commitParseOutput out = .error (.timeParsePanic tf)) ∧
    (∀ tf tm, (goSplit '@' (goTrimSpace out)).get? 1 = some tf →
      parseGitTimeL tf = some tm →
      ∃ rev, (goSplit '@' (goTrimSpace out)).get? 0 = some rev ∧
        commitParseOutput out = .ok (rev, rfc3339FormatUTC (goInstant tm))) := by
  refine ⟨?_, ?_, ?_⟩
  · intro hno
    have hsplit := goSplit_no_sep '@' (goTrimSpace out) hno
    simp [commitParseOutput, hsplit]
  · intro tf h1 hpf
    rcases hss : goSplit '@' (goTrimSpace out) with _ | ⟨a, tail⟩
    · rw [hss] at h1; simp at h1
    · rcases tail with _ | ⟨b, t⟩
      · rw [hss] at h1; simp at h1
      · rw [hss] at h1
        have hbtf : b = tf := by simpa using h1
        subst hbtf
        simp [commitParseOutput, hss, hpf]
  · intro tf tm h1 hpt
    rcases hss : goSplit '@' (goTrimSpace out) with _ | ⟨a, tail⟩
    · rw [hss] at h1; simp at h1
    · rcases tail with _ | ⟨b, t⟩
      · rw [hss] at h1; simp at h1
      · rw [hss] at h1
        have hbtf : b = tf := by simpa using h1
        subst hbtf
        exact ⟨a, by simp, by simp [commitParseOutput, hss, hpt]⟩

/-- C2 counterexample.  Backend output with no field separator: TrimSpace
and Split leave a one-element slice, so the unchecked ss[1] of vcs.go line
176 is an uncontrolled out-of-bounds access (Go runtime panic), not a
controlled test abort. -/
theorem commitParseOutput_no_sep_cex :
    commitParseOutput "deadbeef".data = .error .indexOutOfRange := rfl

/-- Witness for C2: a well-formed line yields the revision and the
RFC 3339 UTC commit time. -/
theorem commitParseOutput_spec_witness :
    (goSplit '@' (goTrimSpace "0123abc@2015-07-28 11:21:16 -0700\n".data)).get? 1 =
      some "2015-07-28 11:21:16 -0700".data ∧
    parseGitTimeL "2015-07-28 11:21:16 -0700".data =
      some ⟨2015, 7, 28, 11, 21, 16, -420⟩ ∧
    ∃ rev, (goSplit '@' (goTrimSpace "0123abc@2015-07-28 11:21:16 -0700\n".data)).get? 0 =
        some rev ∧
      commitParseOutput "0123abc@2015-07-28 11:21:16 -0700\n".data =
        .ok (rev, rfc3339FormatUTC (goInstant ⟨2015, 7, 28, 11, 21, 16, -420⟩)) :=
  ⟨by decide, by decide,
    (commitParseOutput_spec "0123abc@2015-07-28 11:21:16 -0700\n".data).2.2
      "2015-07-28 11:21:16 -0700".data ⟨2015, 7, 28, 11, 21, 16, -420⟩
      (by decide) (by decide)⟩
